import Mathlib

/-!
Verification of the cross-table heuristic entity search of this repository
(`dash_multitable.py`, duplicated in `search_person.py` / `search_linda.py`).

The embedding follows the source line by line:
* `pySplit` embeds Python `str.split()` (split on whitespace runs, drop empties).
* `string_cols` embeds lines 78-86 of `dash_multitable.py` (string-typed column
  selection by uppercase substring markers).
* `col_condition` / `term_condition` / `where_clause` / `sample_sql` /
  `count_sql` embed the literal SQL text construction of lines 88-104.
* `scan_table` embeds the per-table body of the loop (lines 77-119): the
  external SQL store's evaluation of `[c] LIKE '%t%'` is modelled, per the
  spec's stated contract for the row-query interface, as a case-insensitive
  substring containment on text values; a caught exception (catalog fault,
  query fault, or the malformed empty WHERE clause produced by an empty term
  list) is modelled as the `none` outcome, exactly as the bare `except: pass`
  treats it.
* `search_all_tables` embeds the budgeted loop of lines 66-122;
  `scanned_tables` / `row_queried_tables` record, with the same control flow,
  which tables had a catalog (column) query respectively a row query issued.
* `combine_results` embeds lines 124-139, `extract_name` the name-extraction
  block of `introduce_person` (lines 195-206), and `query_search_term` the
  entry-point tokenization of `query_and_introduce` (line 239).
-/

/-- A database scalar as it reaches the Python layer: text, number, or NULL. -/
inductive Value where
  | vstr (s : String)
  | vint (n : Int)
  | vnull
  deriving DecidableEq, Repr

/-- Python truthiness (`if not name`) of a scalar. -/
def truthy : Value → Bool
  | .vstr s => !s.isEmpty
  | .vint n => n != 0
  | .vnull => false

/-- Python `str()` / f-string rendering of a scalar. -/
def pyStr : Value → String
  | .vstr s => s
  | .vint n => toString n
  | .vnull => "None"

/-- A column as returned by the catalog: name and declared SQL type. -/
structure Column where
  name : String
  declType : String
  deriving DecidableEq, Repr

/-- One table of the external store, with fault flags standing for the
exceptions the bare `except` of the source can catch: `catalogFault` for a
failing `get_columns`, `queryFault` for a failing `conn.execute`. -/
structure Table where
  name : String
  columns : List Column
  rows : List (List Value)
  catalogFault : Bool := false
  queryFault : Bool := false
  deriving DecidableEq, Repr

/-- A row as a Python dict: ordered association list column-name to value. -/
abbrev DbRecord := List (String × Value)

/-- The per-table hit dict `{'table', 'count', 'columns', 'records'}`. -/
structure TableMatch where
  table : String
  count : Nat
  columns : List String
  records : List DbRecord
  deriving DecidableEq, Repr

/-! ### Python string primitives -/

/-- `leadMatch n h` : `n` is an initial segment of `h`. -/
def leadMatch : List Char → List Char → Bool
  | [], _ => true
  | _ :: _, [] => false
  | a :: as, b :: bs => a == b && leadMatch as bs

/-- `charsContain h n` : `n` occurs contiguously inside `h`. -/
def charsContain : List Char → List Char → Bool
  | [], needle => leadMatch needle []
  | a :: as, needle => leadMatch needle (a :: as) || charsContain as needle

/-- Python's `needle in hay` on strings. -/
def strContains (hay needle : String) : Bool :=
  charsContain hay.toList needle.toList

/-- Python `s.upper()` (ASCII case map, which covers the SQL type names and
terms at hand). -/
def pyUpper (s : String) : String :=
  String.mk (s.toList.map Char.toUpper)

/-- Python `s.lower()` (ASCII case map). -/
def pyLower (s : String) : String :=
  String.mk (s.toList.map Char.toLower)

/-- Python `s.strip()`: drop leading and trailing whitespace. -/
def pyStrip (s : String) : String :=
  String.mk (((s.toList.dropWhile Char.isWhitespace).reverse.dropWhile
    Char.isWhitespace).reverse)

/-- Worker for `pySplit`: `cur` holds the characters of the word in
progress, in reverse. -/
def wordsAux : List Char → List Char → List String
  | [], cur => if cur.isEmpty then [] else [String.mk cur.reverse]
  | c :: cs, cur =>
    if c.isWhitespace then
      if cur.isEmpty then wordsAux cs [] else String.mk cur.reverse :: wordsAux cs []
    else wordsAux cs (c :: cur)

/-- Python `s.split()`: split on runs of whitespace, no empty tokens. -/
def pySplit (s : String) : List String :=
  wordsAux s.toList []

/-! ### Schema introspection (lines 78-86) -/

/-- The fixed marker set of line 82. -/
def string_type_markers : List String := ["VARCHAR", "NVARCHAR", "TEXT", "CHAR"]

/-- Line 81-82: `any(t in str(col['type']).upper() for t in [...])`. -/
def is_string_col_type (declType : String) : Bool :=
  string_type_markers.any (fun m => strContains (pyUpper declType) m)

/-- Lines 79-83: the names of the string-typed columns, in column order. -/
def string_cols (cols : List Column) : List String :=
  (cols.filter (fun c => is_string_col_type c.declType)).map (fun c => c.name)

/-! ### Predicate text construction (lines 88-104) -/

/-- Python `sep.join(l)`. -/
def joinSep (sep : String) : List String → String
  | [] => ""
  | [x] => x
  | x :: xs => x ++ sep ++ joinSep sep xs

/-- Line 91: `f"[{col}] LIKE '%{term}%'"`, the term spliced in verbatim. -/
def col_condition (col term : String) : String :=
  "[" ++ col ++ "] LIKE '%" ++ term ++ "%'"

/-- Lines 91-92: disjunction of one term's conditions across columns. -/
def term_condition (scols : List String) (term : String) : String :=
  "(" ++ joinSep " OR " (scols.map (fun c => col_condition c term)) ++ ")"

/-- Line 95: conjunction of the per-term disjunctions. -/
def where_clause (scols : List String) (terms : List String) : String :=
  joinSep " AND " (terms.map (fun t => term_condition scols t))

/-- Line 97: the bounded sample query text. -/
def sample_sql (tname wc : String) : String :=
  "SELECT TOP 10 * FROM [" ++ tname ++ "] WHERE " ++ wc

/-- Line 104: the count query text, same WHERE clause. -/
def count_sql (tname wc : String) : String :=
  "SELECT COUNT(*) FROM [" ++ tname ++ "] WHERE " ++ wc

/-! ### Store-side evaluation of the built predicate

The SQL store is external to the repository; per the spec's row-query
contract, `[c] LIKE '%term%'` under the case-insensitive collation holds of
a text value exactly when the value contains the term, case-insensitively. -/

/-- One `[c] LIKE '%term%'` condition evaluated at the column's value. -/
def like_contains (v : Value) (term : String) : Bool :=
  match v with
  | .vstr s => strContains (pyLower s) (pyLower term)
  | _ => false

/-- The per-term disjunction of line 91-92 evaluated at one row: some
string-typed column's value contains the term. -/
def row_matches_term (cols : List Column) (row : List Value) (term : String) : Bool :=
  (cols.zip row).any (fun cv => is_string_col_type cv.1.declType && like_contains cv.2 term)

/-- The full WHERE clause of line 95 evaluated at one row: every term found. -/
def row_matches (cols : List Column) (terms : List String) (row : List Value) : Bool :=
  terms.all (row_matches_term cols row)

/-- Line 108: `dict(zip(col_names, row))` — all columns, `SELECT *`. -/
def mk_record (cols : List Column) (row : List Value) : DbRecord :=
  (cols.map (fun c => c.name)).zip row

/-- The `TOP 10` literal of line 97. -/
def sample_limit : Nat := 10

/-! ### Per-table scan (loop body, lines 77-119) -/

/-- The body of the table loop. `none` is every skip path: a caught catalog
fault, no string columns (`continue`, line 85-86), a caught query fault, the
malformed empty WHERE clause of an empty term list, or an empty sample
(lines 103: `if rows:` false). On success the dict of lines 110-115. -/
def scan_table (terms : List String) (t : Table) : Option TableMatch :=
  if t.catalogFault then none
  else
    let scols := string_cols t.columns
    if scols.isEmpty then none
    else if t.queryFault then none
    else if terms.isEmpty then none
    else
      let matching := t.rows.filter (row_matches t.columns terms)
      let sample := matching.take sample_limit
      if sample.isEmpty then none
      else some { table := t.name
                  count := matching.length
                  columns := t.columns.map (fun c => c.name)
                  records := sample.map (mk_record t.columns) }

/-! ### Budgeted aggregation (lines 66-122) -/

/-- The table loop of lines 73-119: `acc` is `found_results`; the loop
breaks as soon as `len(found_results) >= max_tables`. -/
def search_aux (terms : List String) (b : Nat) : List Table → List TableMatch → List TableMatch
  | [], acc => acc
  | t :: ts, acc =>
    if b ≤ acc.length then acc
    else
      match scan_table terms t with
      | some m => search_aux terms b ts (acc ++ [m])
      | none => search_aux terms b ts acc

/-- `search_all_tables(search_term, max_tables)` over an explicit store. -/
def search_all_tables (phrase : String) (b : Nat) (tables : List Table) : List TableMatch :=
  search_aux (pySplit phrase) b tables []

/-- Same control flow, recording the tables for which a catalog (column)
query was issued: every table reached before the budget check breaks. -/
def scanned_aux (terms : List String) (b : Nat) : List Table → List TableMatch → List String
  | [], _ => []
  | t :: ts, acc =>
    if b ≤ acc.length then []
    else
      t.name :: scanned_aux terms b ts
        (match scan_table terms t with
         | some m => acc ++ [m]
         | none => acc)

/-- Tables for which any catalog/column query was issued during the search. -/
def scanned_tables (phrase : String) (b : Nat) (tables : List Table) : List String :=
  scanned_aux (pySplit phrase) b tables []

/-- A row (sample) query is issued for a table exactly when its catalog
query succeeded and it has at least one string column (line 97-100 reached). -/
def row_queried (t : Table) : Bool :=
  !t.catalogFault && !(string_cols t.columns).isEmpty

/-- Same control flow, recording the tables against which the sample query
was issued. -/
def row_queried_aux (terms : List String) (b : Nat) : List Table → List TableMatch → List String
  | [], _ => []
  | t :: ts, acc =>
    if b ≤ acc.length then []
    else
      (if row_queried t then [t.name] else []) ++
        row_queried_aux terms b ts
          (match scan_table terms t with
           | some m => acc ++ [m]
           | none => acc)

/-- Tables for which a row (sample) query was issued during the search. -/
def row_queried_tables (phrase : String) (b : Nat) (tables : List Table) : List String :=
  row_queried_aux (pySplit phrase) b tables []

/-! ### Record combination and tagging (lines 124-139) -/

/-- Python dict membership test `k in rec`. -/
def has_key (rec : DbRecord) (k : String) : Bool :=
  rec.any (fun p => p.1 == k)

/-- Python `rec.get(k)` as an option. -/
def get_val (rec : DbRecord) (k : String) : Option Value :=
  (rec.find? (fun p => p.1 == k)).map (fun p => p.2)

/-- Python `rec.get(k, d)`. -/
def get_d (rec : DbRecord) (k : String) (d : Value) : Value :=
  (get_val rec k).getD d

/-- Python dict assignment `rec[k] = v`: overwrite in place if the key is
present, else append at the end (insertion order). -/
def set_key (rec : DbRecord) (k : String) (v : Value) : DbRecord :=
  if has_key rec k then rec.map (fun p => if p.1 == k then (k, v) else p)
  else rec ++ [(k, v)]

/-- Lines 124-139: flatten all sampled records, tagging each with
`_source_table`, and collect the table names, in order. -/
def combine_results : List TableMatch → List DbRecord × List String
  | [] => ([], [])
  | r :: rs =>
    let rest := combine_results rs
    (r.records.map (fun rec => set_key rec "_source_table" (.vstr r.table)) ++ rest.1,
     r.table :: rest.2)

/-! ### Name extraction of `introduce_person` (lines 195-206) -/

/-- Lines 195-206 verbatim: the elif chain keys on key PRESENCE (`'Contact'
in first_record`), then `if not name: name = "Unknown"` applies Python
truthiness to whatever the chain produced. -/
def extract_name (rec : DbRecord) : String :=
  let raw : Value :=
    if has_key rec "FirstName" && has_key rec "LastName" then
      .vstr (pyStrip (pyStr (get_d rec "FirstName" (.vstr "")) ++ " " ++
              pyStr (get_d rec "LastName" (.vstr ""))))
    else if has_key rec "Contact" then get_d rec "Contact" (.vstr "")
    else if has_key rec "Attention" then get_d rec "Attention" (.vstr "")
    else if has_key rec "Name" then get_d rec "Name" (.vstr "")
    else .vstr ""
  if truthy raw then pyStr raw else "Unknown"

/-- Modelled from the spec: the name-extraction rule as the spec words it —
the first present-AND-non-empty value among the candidates, in priority
order FirstName+LastName, Contact, Attention, Name, else "Unknown". Stated
for comparison with `extract_name`, which is the source's rule. -/
def spec_extract_name (rec : DbRecord) : String :=
  let fl := pyStrip (pyStr (get_d rec "FirstName" (.vstr "")) ++ " " ++
             pyStr (get_d rec "LastName" (.vstr "")))
  if has_key rec "FirstName" && has_key rec "LastName" && !fl.isEmpty then fl
  else if has_key rec "Contact" && truthy (get_d rec "Contact" (.vstr "")) then
    pyStr (get_d rec "Contact" (.vstr ""))
  else if has_key rec "Attention" && truthy (get_d rec "Attention" (.vstr "")) then
    pyStr (get_d rec "Attention" (.vstr ""))
  else if has_key rec "Name" && truthy (get_d rec "Name" (.vstr "")) then
    pyStr (get_d rec "Name" (.vstr ""))
  else "Unknown"

/-! ### Entry-point tokenization (`query_and_introduce`, line 239) -/

/-- Line 239: `question.split()[-1] if ' ' in question else question`;
`none` is the uncaught IndexError of `[-1]` on an empty split. -/
def query_search_term (question : String) : Option String :=
  if question.toList.contains ' ' then (pySplit question).getLast? else some question

/-! ### Lemmas: substring containment -/

theorem leadMatch_iff (n h : List Char) : leadMatch n h = true ↔ ∃ rest, h = n ++ rest := by
  induction n generalizing h with
  | nil => simp [leadMatch]
  | cons a as ih =>
    cases h with
    | nil => simp [leadMatch]
    | cons b bs =>
      simp only [leadMatch, Bool.and_eq_true, beq_iff_eq, ih, List.cons_append,
        List.cons.injEq]
      constructor
      · rintro ⟨rfl, rest, rfl⟩
        exact ⟨rest, rfl, rfl⟩
      · rintro ⟨rest, rfl, rfl⟩
        exact ⟨rfl, rest, rfl⟩

theorem charsContain_iff (h n : List Char) :
    charsContain h n = true ↔ ∃ pre post, h = pre ++ n ++ post := by
  induction h with
  | nil =>
    simp only [charsContain, leadMatch_iff]
    constructor
    · rintro ⟨rest, hrest⟩
      exact ⟨[], rest, by simpa using hrest⟩
    · rintro ⟨pre, post, hpp⟩
      rcases List.append_eq_nil.mp (List.append_eq_nil.mp hpp.symm).1 with ⟨h1, h2⟩
      exact ⟨[], by simp [h2]⟩
  | cons a as ih =>
    simp only [charsContain, Bool.or_eq_true, leadMatch_iff, ih]
    constructor
    · rintro (⟨rest, hrest⟩ | ⟨pre, post, hpp⟩)
      · exact ⟨[], rest, by simpa using hrest⟩
      · exact ⟨a :: pre, post, by simp [hpp]⟩
    · rintro ⟨pre, post, hpp⟩
      cases pre with
      | nil => exact Or.inl ⟨post, by simpa using hpp⟩
      | cons p ps =>
        right
        simp only [List.cons_append, List.cons.injEq] at hpp
        exact ⟨ps, post, hpp.2⟩

theorem toList_append (a b : String) : (a ++ b).toList = a.toList ++ b.toList := rfl

theorem strContains_iff (hay needle : String) :
    strContains hay needle = true ↔
      ∃ pre post, hay.toList = pre ++ needle.toList ++ post :=
  charsContain_iff _ _

theorem strContains_self (x : String) : strContains x x = true := by
  rw [strContains_iff]
  exact ⟨[], [], by simp⟩

theorem strContains_trans (a b c : String) (h1 : strContains a b = true)
    (h2 : strContains b c = true) : strContains a c = true := by
  rw [strContains_iff] at h1 h2 ⊢
  obtain ⟨p1, q1, e1⟩ := h1
  obtain ⟨p2, q2, e2⟩ := h2
  exact ⟨p1 ++ p2, q2 ++ q1, by rw [e1, e2]; simp⟩

theorem strContains_append_left (d c x : String) (h : strContains c x = true) :
    strContains (d ++ c) x = true := by
  rw [strContains_iff] at h ⊢
  obtain ⟨p, q, e⟩ := h
  exact ⟨d.toList ++ p, q, by rw [toList_append, e]; simp⟩

theorem strContains_append_right (c d x : String) (h : strContains c x = true) :
    strContains (c ++ d) x = true := by
  rw [strContains_iff] at h ⊢
  obtain ⟨p, q, e⟩ := h
  exact ⟨p, q ++ d.toList, by rw [toList_append, e]; simp⟩

theorem strContains_joinSep (sep : String) (l : List String) (x : String) (hx : x ∈ l) :
    strContains (joinSep sep l) x = true := by
  induction l with
  | nil => cases hx
  | cons y ys ih =>
    cases ys with
    | nil =>
      rcases List.mem_singleton.mp hx with rfl
      exact strContains_self x
    | cons z zs =>
      rcases List.mem_cons.mp hx with rfl | hx'
      · exact strContains_append_right _ _ _ (strContains_append_right _ _ _ (strContains_self x))
      · exact strContains_append_left _ _ _ (ih hx')

/-! ### Lemmas: budgeted loop -/

theorem search_aux_of_le (terms : List String) (b : Nat) (ts : List Table)
    (acc : List TableMatch) (h : b ≤ acc.length) : search_aux terms b ts acc = acc := by
  cases ts with
  | nil => rfl
  | cons t ts => simp [search_aux, h]

theorem scanned_aux_of_le (terms : List String) (b : Nat) (ts : List Table)
    (acc : List TableMatch) (h : b ≤ acc.length) : scanned_aux terms b ts acc = [] := by
  cases ts with
  | nil => rfl
  | cons t ts => simp [scanned_aux, h]

theorem row_queried_aux_of_le (terms : List String) (b : Nat) (ts : List Table)
    (acc : List TableMatch) (h : b ≤ acc.length) : row_queried_aux terms b ts acc = [] := by
  cases ts with
  | nil => rfl
  | cons t ts => simp [row_queried_aux, h]

theorem search_aux_append (terms : List String) (b : Nat) (l1 l2 : List Table)
    (acc : List TableMatch) :
    search_aux terms b (l1 ++ l2) acc = search_aux terms b l2 (search_aux terms b l1 acc) := by
  induction l1 generalizing acc with
  | nil => rfl
  | cons t ts ih =>
    by_cases h : b ≤ acc.length
    · rw [show (t :: ts) ++ l2 = t :: (ts ++ l2) from rfl,
        search_aux_of_le terms b _ _ h, search_aux_of_le terms b _ _ h,
        search_aux_of_le terms b _ _ h]
    · simp only [List.cons_append, search_aux, if_neg h]
      cases hscan : scan_table terms t with
      | some m => exact ih (acc ++ [m])
      | none => exact ih acc

theorem scanned_aux_append (terms : List String) (b : Nat) (l1 l2 : List Table)
    (acc : List TableMatch) :
    scanned_aux terms b (l1 ++ l2) acc
      = scanned_aux terms b l1 acc ++ scanned_aux terms b l2 (search_aux terms b l1 acc) := by
  induction l1 generalizing acc with
  | nil => rfl
  | cons t ts ih =>
    by_cases h : b ≤ acc.length
    · rw [show (t :: ts) ++ l2 = t :: (ts ++ l2) from rfl,
        scanned_aux_of_le terms b _ _ h, scanned_aux_of_le terms b _ _ h,
        search_aux_of_le terms b _ _ h, scanned_aux_of_le terms b _ _ h]
      rfl
    · simp only [List.cons_append, scanned_aux, search_aux, if_neg h]
      cases hscan : scan_table terms t with
      | some m => simp [ih (acc ++ [m])]
      | none => simp [ih acc]

theorem row_queried_aux_append (terms : List String) (b : Nat) (l1 l2 : List Table)
    (acc : List TableMatch) :
    row_queried_aux terms b (l1 ++ l2) acc
      = row_queried_aux terms b l1 acc
        ++ row_queried_aux terms b l2 (search_aux terms b l1 acc) := by
  induction l1 generalizing acc with
  | nil => rfl
  | cons t ts ih =>
    by_cases h : b ≤ acc.length
    · rw [show (t :: ts) ++ l2 = t :: (ts ++ l2) from rfl,
        row_queried_aux_of_le terms b _ _ h, row_queried_aux_of_le terms b _ _ h,
        search_aux_of_le terms b _ _ h, row_queried_aux_of_le terms b _ _ h]
      rfl
    · simp only [List.cons_append, row_queried_aux, search_aux, if_neg h]
      cases hscan : scan_table terms t with
      | some m => simp [ih (acc ++ [m])]
      | none => simp [ih acc]

theorem search_aux_skip (terms : List String) (b : Nat) (t : Table) (ts : List Table)
    (acc : List TableMatch) (h : scan_table terms t = none) :
    search_aux terms b (t :: ts) acc = search_aux terms b ts acc := by
  by_cases hb : b ≤ acc.length
  · rw [search_aux_of_le terms b _ _ hb, search_aux_of_le terms b _ _ hb]
  · simp [search_aux, if_neg hb, h]

theorem row_queried_aux_skip (terms : List String) (b : Nat) (t : Table) (ts : List Table)
    (acc : List TableMatch) (h : scan_table terms t = none) (hr : row_queried t = false) :
    row_queried_aux terms b (t :: ts) acc = row_queried_aux terms b ts acc := by
  by_cases hb : b ≤ acc.length
  · rw [row_queried_aux_of_le terms b _ _ hb, row_queried_aux_of_le terms b _ _ hb]
  · simp [row_queried_aux, if_neg hb, h, hr]

theorem search_aux_length (terms : List String) (b : Nat) (ts : List Table)
    (acc : List TableMatch) (h : acc.length ≤ b) :
    (search_aux terms b ts acc).length ≤ b := by
  induction ts generalizing acc with
  | nil => simpa [search_aux] using h
  | cons t ts ih =>
    by_cases hb : b ≤ acc.length
    · rw [search_aux_of_le terms b _ _ hb]
      exact h
    · simp only [search_aux, if_neg hb]
      cases hscan : scan_table terms t with
      | some m => exact ih (acc ++ [m]) (by simp; omega)
      | none => exact ih acc h

theorem mem_search_aux (terms : List String) (b : Nat) (ts : List Table)
    (acc : List TableMatch) (m : TableMatch) (hm : m ∈ search_aux terms b ts acc) :
    m ∈ acc ∨ ∃ t ∈ ts, scan_table terms t = some m := by
  induction ts generalizing acc with
  | nil => exact Or.inl hm
  | cons t ts ih =>
    by_cases hb : b ≤ acc.length
    · rw [search_aux_of_le terms b _ _ hb] at hm
      exact Or.inl hm
    · simp only [search_aux, if_neg hb] at hm
      cases hscan : scan_table terms t with
      | some m' =>
        rw [hscan] at hm
        rcases ih (acc ++ [m']) hm with h | ⟨u, hu, hscanu⟩
        · rcases List.mem_append.mp h with h | h
          · exact Or.inl h
          · right
            refine ⟨t, List.mem_cons_self t ts, ?_⟩
            rw [hscan, List.mem_singleton.mp h]
        · exact Or.inr ⟨u, List.mem_cons_of_mem t hu, hscanu⟩
      | none =>
        rw [hscan] at hm
        rcases ih acc hm with h | ⟨u, hu, hscanu⟩
        · exact Or.inl h
        · exact Or.inr ⟨u, List.mem_cons_of_mem t hu, hscanu⟩

theorem search_aux_all_none (terms : List String) (b : Nat) (ts : List Table)
    (acc : List TableMatch) (h : ∀ u ∈ ts, scan_table terms u = none) :
    search_aux terms b ts acc = acc := by
  induction ts with
  | nil => rfl
  | cons t ts ih =>
    rw [search_aux_skip terms b t ts acc (h t (List.mem_cons_self t ts))]
    exact ih fun u hu => h u (List.mem_cons_of_mem t hu)

theorem search_aux_middle_none (terms : List String) (b : Nat) (pre post : List Table)
    (t : Table) (acc : List TableMatch) (h : scan_table terms t = none) :
    search_aux terms b (pre ++ t :: post) acc = search_aux terms b (pre ++ post) acc := by
  rw [search_aux_append terms b pre (t :: post) acc, search_aux_append terms b pre post acc]
  exact search_aux_skip terms b t post _ h

theorem row_queried_aux_middle (terms : List String) (b : Nat) (pre post : List Table)
    (t : Table) (acc : List TableMatch) (h : scan_table terms t = none)
    (hr : row_queried t = false) :
    row_queried_aux terms b (pre ++ t :: post) acc
      = row_queried_aux terms b (pre ++ post) acc := by
  rw [row_queried_aux_append terms b pre (t :: post) acc,
    row_queried_aux_append terms b pre post acc]
  rw [row_queried_aux_skip terms b t post _ h hr]

/-! ### Lemmas: per-table scan -/

theorem scan_table_eq_some (terms : List String) (t : Table) (m : TableMatch)
    (h : scan_table terms t = some m) :
    t.catalogFault = false ∧ t.queryFault = false ∧ terms ≠ [] ∧
    m.table = t.name ∧
    m.count = (t.rows.filter (row_matches t.columns terms)).length ∧
    m.columns = t.columns.map (fun c => c.name) ∧
    m.records = ((t.rows.filter (row_matches t.columns terms)).take sample_limit).map
      (mk_record t.columns) := by
  simp only [scan_table] at h
  split at h
  · cases h
  · split at h
    · cases h
    · split at h
      · cases h
      · split at h
        · cases h
        · split at h
          · cases h
          · rename_i h1 h2 h3 h4 h5
            injection h with h6
            subst h6
            refine ⟨by simpa using h1, by simpa using h3, by simpa using h4, rfl, rfl, rfl, rfl⟩

theorem scan_table_queryFault (terms : List String) (t : Table)
    (hf : t.queryFault = true) : scan_table terms t = none := by
  simp [scan_table, hf]

theorem scan_table_no_rows (terms : List String) (t : Table) (h : t.rows = []) :
    scan_table terms t = none := by
  simp [scan_table, h]

theorem scan_table_no_string_cols (terms : List String) (t : Table)
    (h : string_cols t.columns = []) : scan_table terms t = none := by
  simp [scan_table, h]

/-! ### Lemmas: Python split tokens -/

theorem string_mk_toList (l : List Char) : (String.mk l).toList = l := rfl

theorem toList_eq_nil_iff (s : String) : s.toList = [] ↔ s = "" := by
  cases s with
  | mk data =>
    constructor
    · intro h
      rw [string_mk_toList] at h
      rw [h]
    · intro h
      rw [h]
      rfl

theorem wordsAux_mem (l : List Char) (cur : List Char)
    (hcur : ∀ c ∈ cur, c.isWhitespace = false)
    (t : String) (ht : t ∈ wordsAux l cur) :
    t ≠ "" ∧ ∀ c ∈ t.toList, c.isWhitespace = false := by
  induction l generalizing cur with
  | nil =>
    simp only [wordsAux] at ht
    split at ht
    · cases ht
    · rename_i hne
      rcases List.mem_singleton.mp ht with rfl
      constructor
      · intro hcontra
        have hnil : cur.reverse = [] := by
          have := (toList_eq_nil_iff _).mpr hcontra
          rwa [string_mk_toList] at this
        exact hne (by simp [List.reverse_eq_nil_iff.mp hnil])
      · intro c hc
        rw [string_mk_toList] at hc
        exact hcur c (List.mem_reverse.mp hc)
  | cons a as ih =>
    simp only [wordsAux] at ht
    split at ht
    · split at ht
      · exact ih [] (by simp) ht
      · rename_i hne
        rcases List.mem_cons.mp ht with rfl | ht'
        · constructor
          · intro hcontra
            have hnil : cur.reverse = [] := by
              have := (toList_eq_nil_iff _).mpr hcontra
              rwa [string_mk_toList] at this
            exact hne (by simp [List.reverse_eq_nil_iff.mp hnil])
          · intro c hc
            rw [string_mk_toList] at hc
            exact hcur c (List.mem_reverse.mp hc)
        · exact ih [] (by simp) ht'
    · rename_i hws
      refine ih (a :: cur) ?_ ht
      intro c hc
      rcases List.mem_cons.mp hc with rfl | hc'
      · simpa using hws
      · exact hcur c hc'

theorem wordsAux_all_non_ws (l : List Char) (cur : List Char)
    (hl : ∀ c ∈ l, c.isWhitespace = false) (hne : cur ≠ [] ∨ l ≠ []) :
    wordsAux l cur = [String.mk (cur.reverse ++ l)] := by
  induction l generalizing cur with
  | nil =>
    rcases hne with h | h
    · simp [wordsAux, h]
    · cases h rfl
  | cons a as ih =>
    have ha : a.isWhitespace = false := hl a (List.mem_cons_self a as)
    simp only [wordsAux, ha, Bool.false_eq_true, if_false]
    rw [ih (a :: cur) (fun c hc => hl c (List.mem_cons_of_mem a hc)) (Or.inl (by simp))]
    congr 1
    simp

theorem pySplit_token (q s : String) (hs : s ∈ pySplit q) : pySplit s = [s] := by
  obtain ⟨hne, hws⟩ := wordsAux_mem q.toList [] (by simp) s hs
  unfold pySplit
  rw [wordsAux_all_non_ws s.toList [] hws (Or.inr (fun h => hne ((toList_eq_nil_iff s).mp h)))]
  simp

/-! ### Lemmas: dict get and set -/

theorem get_val_overwrite (rec : DbRecord) (k : String) (v : Value)
    (hk : has_key rec k = true) :
    get_val (rec.map (fun p => if p.1 == k then (k, v) else p)) k = some v := by
  induction rec with
  | nil => simp [has_key] at hk
  | cons p ps ih =>
    by_cases hp : (p.1 == k) = true
    · simp [get_val, List.find?, hp]
    · have hk' : has_key ps k = true := by
        simp only [has_key, List.any_cons, Bool.or_eq_true] at hk
        rcases hk with h | h
        · exact absurd h hp
        · simpa [has_key] using h
      have := ih hk'
      simpa [get_val, List.find?, hp] using this

theorem get_val_append_new (rec : DbRecord) (k : String) (v : Value)
    (hk : has_key rec k = false) :
    get_val (rec ++ [(k, v)]) k = some v := by
  induction rec with
  | nil => simp [get_val, List.find?]
  | cons p ps ih =>
    have hp : (p.1 == k) = false := by
      simp only [has_key, List.any_cons, Bool.or_eq_false_iff] at hk
      exact hk.1
    have hk' : has_key ps k = false := by
      simp only [has_key, List.any_cons, Bool.or_eq_false_iff] at hk
      simpa [has_key] using hk.2
    have := ih hk'
    simpa [get_val, List.find?, hp] using this

theorem get_val_set_key (rec : DbRecord) (k : String) (v : Value) :
    get_val (set_key rec k v) k = some v := by
  unfold set_key
  by_cases hk : has_key rec k = true
  · rw [if_pos hk]
    exact get_val_overwrite rec k v hk
  · rw [if_neg hk]
    exact get_val_append_new rec k v (by simpa using hk)

/-! ### Concrete fixtures -/

/-- The spec's P5 scenario table: `Contacts {FirstName: string, Age: integer}`
with one row `{FirstName: "Linda", Age: 40}`. -/
def lindaTable : Table :=
  { name := "Contacts"
    columns := [⟨"FirstName", "NVARCHAR(50)"⟩, ⟨"Age", "INT"⟩]
    rows := [[.vstr "Linda", .vint 40]] }

/-- The TableMatch the scenario produces. -/
def lindaMatch : TableMatch :=
  { table := "Contacts"
    count := 1
    columns := ["FirstName", "Age"]
    records := [[("FirstName", .vstr "Linda"), ("Age", .vint 40)]] }

/-- The scenario row after provenance tagging. -/
def lindaTagged : DbRecord :=
  [("FirstName", .vstr "Linda"), ("Age", .vint 40), ("_source_table", .vstr "Contacts")]

/-- A table whose row query faults (simulated execution error), though its
contents would match "Linda". -/
def errTable : Table :=
  { name := "Broken"
    columns := [⟨"Note", "TEXT"⟩]
    rows := [[.vstr "Linda"]]
    queryFault := true }

/-- A table with no string-typed column. -/
def intTable : Table :=
  { name := "Nums"
    columns := [⟨"Age", "INT"⟩]
    rows := [[.vint 1]] }

/-- A table with eleven matching rows, to exceed the sample limit. -/
def bigTable : Table :=
  { name := "Big"
    columns := [⟨"C", "VARCHAR(10)"⟩]
    rows := List.replicate 11 [.vstr "xa"] }

/-- The TableMatch `bigTable` yields for the term "a". -/
def bigMatch : TableMatch :=
  { table := "Big"
    count := 11
    columns := ["C"]
    records := List.replicate 10 [("C", .vstr "xa")] }

/-- A record with a present-but-empty Contact and a non-empty Name. -/
def rec0 : DbRecord := [("Contact", .vstr ""), ("Name", .vstr "Bob")]

/-- A record with a present non-empty Contact only. -/
def rec1 : DbRecord := [("Contact", .vstr "Ann Smith")]

/-! ### Claims -/

/-- C1: for every search phrase with at least one whitespace-delimited term,
every record in every TableMatch of the aggregate result contains, for every
term of the phrase, at least one column whose value case-insensitively
contains that term as a substring (AND across the phrase's terms, OR across
columns; `like_contains` holds only of text-valued columns). -/
theorem C1_conjunctive_disjunctive_law (phrase : String) (b : Nat) (tables : List Table)
    (hph : pySplit phrase ≠ [])
    (m : TableMatch) (hm : m ∈ search_all_tables phrase b tables)
    (rec : DbRecord) (hrec : rec ∈ m.records)
    (term : String) (hterm : term ∈ pySplit phrase) :
    ∃ p ∈ rec, like_contains p.2 term = true := by
  rcases mem_search_aux (pySplit phrase) b tables [] m hm with h | ⟨t, _, hscan⟩
  · cases h
  obtain ⟨-, -, -, -, -, -, hrecords⟩ := scan_table_eq_some _ _ _ hscan
  rw [hrecords] at hrec
  obtain ⟨row, hrow, rfl⟩ := List.mem_map.mp hrec
  have hrow' : row ∈ t.rows.filter (row_matches t.columns (pySplit phrase)) :=
    List.take_subset _ _ hrow
  have hmatch : row_matches t.columns (pySplit phrase) row = true :=
    (List.mem_filter.mp hrow').2
  have hterm' := List.all_eq_true.mp hmatch term hterm
  obtain ⟨⟨c, v⟩, hcv, hcond⟩ := List.any_eq_true.mp hterm'
  have hlike : like_contains v term = true := by
    simp only [Bool.and_eq_true] at hcond
    exact hcond.2
  refine ⟨(c.name, v), ?_, hlike⟩
  unfold mk_record
  rw [List.zip_map_left]
  exact List.mem_map.mpr ⟨(c, v), hcv, rfl⟩

/-- C1 witness: the law instantiated on the Linda scenario. -/
theorem C1_witness :
    pySplit "Linda" ≠ []
    ∧ lindaMatch ∈ search_all_tables "Linda" 10 [lindaTable]
    ∧ [("FirstName", Value.vstr "Linda"), ("Age", Value.vint 40)] ∈ lindaMatch.records
    ∧ "Linda" ∈ pySplit "Linda"
    ∧ ∃ p ∈ [("FirstName", Value.vstr "Linda"), ("Age", Value.vint 40)],
        like_contains p.2 "Linda" = true :=
  ⟨by decide, by decide, by decide, by decide,
    C1_conjunctive_disjunctive_law "Linda" 10 [lindaTable] (by decide)
      lindaMatch (by decide)
      [("FirstName", Value.vstr "Linda"), ("Age", Value.vint 40)] (by decide)
      "Linda" (by decide)⟩

/-- C2: for every budget and phrase, the aggregate holds at most `b` table
matches; budget 0 yields an empty result with no table scanned (no catalog,
column, or row query); and once the budget is reached on a prefix of the
catalog, the tables after that prefix receive no catalog/column query and no
row query. -/
theorem C2_table_budget (phrase : String) (b : Nat) (tables : List Table) :
    (search_all_tables phrase b tables).length ≤ b
    ∧ (b = 0 → search_all_tables phrase b tables = []
        ∧ scanned_tables phrase b tables = []
        ∧ row_queried_tables phrase b tables = [])
    ∧ ∀ pre post, tables = pre ++ post →
        b ≤ (search_all_tables phrase b pre).length →
        scanned_tables phrase b tables = scanned_tables phrase b pre
        ∧ row_queried_tables phrase b tables = row_queried_tables phrase b pre := by
  refine ⟨search_aux_length _ _ _ _ (by simp), ?_, ?_⟩
  · rintro rfl
    refine ⟨?_, ?_, ?_⟩
    · have h := search_aux_length (pySplit phrase) 0 tables [] (by simp)
      exact List.length_eq_zero.mp (Nat.le_zero.mp h)
    · exact scanned_aux_of_le _ _ _ _ (by simp)
    · exact row_queried_aux_of_le _ _ _ _ (by simp)
  · rintro pre post rfl hb
    constructor
    · unfold scanned_tables
      rw [scanned_aux_append,
        scanned_aux_of_le (pySplit phrase) b post (search_aux (pySplit phrase) b pre []) hb,
        List.append_nil]
    · unfold row_queried_tables
      rw [row_queried_aux_append,
        row_queried_aux_of_le (pySplit phrase) b post (search_aux (pySplit phrase) b pre []) hb,
        List.append_nil]

/-- C2 witness: with budget 1 and a second matching table after the first,
the result length is within budget and the second table is never scanned. -/
theorem C2_witness :
    (search_all_tables "Linda" 1 [lindaTable, lindaTable]).length ≤ 1
    ∧ scanned_tables "Linda" 1 [lindaTable, lindaTable]
        = scanned_tables "Linda" 1 [lindaTable] :=
  ⟨(C2_table_budget "Linda" 1 [lindaTable, lindaTable]).1,
    ((C2_table_budget "Linda" 1 [lindaTable, lindaTable]).2.2
      [lindaTable] [lindaTable] rfl (by decide)).1⟩

/-- C3: a table whose scan faults is simply absent: the aggregate result
over the catalog with the faulting table equals the result without it, and
equals the result had the table merely contained zero matching rows; when
every table's scan yields nothing (errored, empty, or skipped), the result
is the empty aggregate, not an error value. The aggregate is a total
function, so no exception ever reaches the caller. -/
theorem C3_scan_error_skipped (phrase : String) (b : Nat) (pre post : List Table)
    (t : Table) (hf : t.queryFault = true) :
    search_all_tables phrase b (pre ++ t :: post) = search_all_tables phrase b (pre ++ post)
    ∧ search_all_tables phrase b (pre ++ t :: post)
        = search_all_tables phrase b (pre ++ { t with rows := [], queryFault := false } :: post)
    ∧ ∀ tables : List Table,
        (∀ u ∈ tables, scan_table (pySplit phrase) u = none) →
        search_all_tables phrase b tables = [] := by
  have h1 : scan_table (pySplit phrase) t = none := scan_table_queryFault _ _ hf
  have h2 : scan_table (pySplit phrase) { t with rows := [], queryFault := false } = none :=
    scan_table_no_rows _ _ rfl
  refine ⟨?_, ?_, ?_⟩
  · exact search_aux_middle_none _ b pre post t [] h1
  · unfold search_all_tables
    rw [search_aux_middle_none _ b pre post t [] h1,
      search_aux_middle_none _ b pre post _ [] h2]
  · intro tables hall
    exact search_aux_all_none _ b tables [] hall

/-- C3 witness: a faulting table sitting after a healthy one changes
nothing about the aggregate. -/
theorem C3_witness :
    errTable.queryFault = true
    ∧ search_all_tables "Linda" 10 ([lindaTable] ++ errTable :: [])
        = search_all_tables "Linda" 10 ([lindaTable] ++ []) :=
  ⟨rfl, (C3_scan_error_skipped "Linda" 10 [lindaTable] [] errTable rfl).1⟩

/-- C4: for a scannable table (no fault, some string column, some term),
the scan is absent exactly when the bounded sample query returns zero rows;
on success the totalCount is the count of all rows satisfying the identical
predicate — it may exceed the sample limit — while the sampled records are
the first `sample_limit` matching rows, so at most `sample_limit` many. -/
theorem C4_sample_and_count (terms : List String) (t : Table)
    (h1 : t.catalogFault = false) (h2 : t.queryFault = false)
    (h3 : string_cols t.columns ≠ []) (h4 : terms ≠ []) :
    (scan_table terms t = none
      ↔ (t.rows.filter (row_matches t.columns terms)).take sample_limit = [])
    ∧ ∀ m, scan_table terms t = some m →
        m.count = (t.rows.filter (row_matches t.columns terms)).length
        ∧ m.records = ((t.rows.filter (row_matches t.columns terms)).take sample_limit).map
            (mk_record t.columns)
        ∧ m.records.length ≤ sample_limit := by
  constructor
  · have hscols : (string_cols t.columns).isEmpty = false := by
      simpa [List.isEmpty_iff] using h3
    have hterms : terms.isEmpty = false := by
      simpa [List.isEmpty_iff] using h4
    by_cases hs : ((t.rows.filter (row_matches t.columns terms)).take sample_limit).isEmpty = true
    · simp [scan_table, h1, h2, hscols, hterms, hs, List.isEmpty_iff.mp hs]
    · have := hs
      simp only [List.isEmpty_iff] at this
      simp [scan_table, h1, h2, hscols, hterms, hs, this]
  · intro m hm
    obtain ⟨-, -, -, -, hcount, -, hrecords⟩ := scan_table_eq_some terms t m hm
    refine ⟨hcount, hrecords, ?_⟩
    rw [hrecords]
    simp only [List.length_map]
    exact List.length_take_le sample_limit (t.rows.filter (row_matches t.columns terms))

/-- C4 witness: eleven matching rows give a totalCount of 11 while only ten
rows are sampled. -/
theorem C4_witness :
    bigTable.catalogFault = false ∧ bigTable.queryFault = false
    ∧ string_cols bigTable.columns ≠ [] ∧ (["a"] : List String) ≠ []
    ∧ (bigMatch.count = (bigTable.rows.filter (row_matches bigTable.columns ["a"])).length
        ∧ bigMatch.records
            = ((bigTable.rows.filter (row_matches bigTable.columns ["a"])).take
                sample_limit).map (mk_record bigTable.columns)
        ∧ bigMatch.records.length ≤ sample_limit)
    ∧ sample_limit < bigMatch.count :=
  ⟨rfl, rfl, by decide, by decide,
    (C4_sample_and_count ["a"] bigTable rfl rfl (by decide) (by decide)).2 bigMatch (by decide),
    by decide⟩

/-- C5 counterexample: with a present-but-empty `Contact` and a non-empty
`Name`, the code returns "Unknown" while the claim's
first-present-AND-non-empty rule dictates "Bob" — the elif chain selects by
key presence alone and never falls through to a lower-priority field. -/
theorem C5_counterexample :
    extract_name rec0 = "Unknown"
    ∧ spec_extract_name rec0 = "Bob"
    ∧ extract_name rec0 ≠ spec_extract_name rec0 :=
  ⟨by decide, by decide, by decide⟩

/-- C5 amended: for every record, the name is chosen by key PRESENCE in
the fixed priority order, not by value non-emptiness, and the truthiness
fallback to "Unknown" is applied to whatever the chain produced: if both
FirstName and LastName keys are present the name is their stripped
space-joined concatenation ("Unknown" when that strips to empty); otherwise
the first key present among Contact, Attention, Name supplies the value —
if that value is falsy the name is "Unknown", masking any later non-empty
candidate; with no candidate key present the name is "Unknown". -/
theorem C5_presence_based_extraction (rec : DbRecord) :
    ((has_key rec "FirstName" && has_key rec "LastName") = true →
      extract_name rec
        = (if (pyStrip (pyStr (get_d rec "FirstName" (.vstr "")) ++ " " ++
                pyStr (get_d rec "LastName" (.vstr "")))).isEmpty
           then "Unknown"
           else pyStrip (pyStr (get_d rec "FirstName" (.vstr "")) ++ " " ++
                pyStr (get_d rec "LastName" (.vstr "")))))
    ∧ ((has_key rec "FirstName" && has_key rec "LastName") = false →
        has_key rec "Contact" = true →
        extract_name rec
          = (if truthy (get_d rec "Contact" (.vstr ""))
             then pyStr (get_d rec "Contact" (.vstr "")) else "Unknown"))
    ∧ ((has_key rec "FirstName" && has_key rec "LastName") = false →
        has_key rec "Contact" = false →
        has_key rec "Attention" = true →
        extract_name rec
          = (if truthy (get_d rec "Attention" (.vstr ""))
             then pyStr (get_d rec "Attention" (.vstr "")) else "Unknown"))
    ∧ ((has_key rec "FirstName" && has_key rec "LastName") = false →
        has_key rec "Contact" = false →
        has_key rec "Attention" = false →
        has_key rec "Name" = true →
        extract_name rec
          = (if truthy (get_d rec "Name" (.vstr ""))
             then pyStr (get_d rec "Name" (.vstr "")) else "Unknown"))
    ∧ ((has_key rec "FirstName" && has_key rec "LastName") = false →
        has_key rec "Contact" = false →
        has_key rec "Attention" = false →
        has_key rec "Name" = false →
        extract_name rec = "Unknown") := by
  refine ⟨?_, ?_, ?_, ?_, ?_⟩
  · intro h1
    simp only [extract_name, h1, if_true]
    by_cases he : (pyStrip (pyStr (get_d rec "FirstName" (.vstr "")) ++ " " ++
        pyStr (get_d rec "LastName" (.vstr "")))).isEmpty = true
    · simp [truthy, he]
    · simp [truthy, he]
      rfl
  · intro h1 h2
    simp [extract_name, h1, h2]
  · intro h1 h2 h3
    simp [extract_name, h1, h2, h3]
  · intro h1 h2 h3 h4
    simp [extract_name, h1, h2, h3, h4]
  · intro h1 h2 h3 h4
    simp [extract_name, h1, h2, h3, h4, truthy]
    intro h
    exact absurd h (by decide)

/-- C5 witness: one concrete record per branch of the presence chain — the
FirstName+LastName concatenation, a non-empty Contact, a present-but-empty
Attention masking a non-empty Name, a Name fallback, and the no-candidate
default. -/
theorem C5_witness :
    extract_name [("FirstName", Value.vstr "Mark"), ("LastName", Value.vstr "Jones")]
        = "Mark Jones"
    ∧ extract_name rec1 = "Ann Smith"
    ∧ extract_name [("Attention", Value.vstr ""), ("Name", Value.vstr "Bob")] = "Unknown"
    ∧ extract_name [("Name", Value.vstr "Acme")] = "Acme"
    ∧ extract_name [("Age", Value.vint 40)] = "Unknown" :=
  ⟨((C5_presence_based_extraction
      [("FirstName", Value.vstr "Mark"), ("LastName", Value.vstr "Jones")]).1
      (by decide)).trans (by decide),
    ((C5_presence_based_extraction rec1).2.1 (by decide) (by decide)).trans (by decide),
    ((C5_presence_based_extraction
      [("Attention", Value.vstr ""), ("Name", Value.vstr "Bob")]).2.2.1
      (by decide) (by decide) (by decide)).trans (by decide),
    ((C5_presence_based_extraction [("Name", Value.vstr "Acme")]).2.2.2.1
      (by decide) (by decide) (by decide) (by decide)).trans (by decide),
    (C5_presence_based_extraction [("Age", Value.vint 40)]).2.2.2.2
      (by decide) (by decide) (by decide) (by decide)⟩

/-- C6: every search term is spliced verbatim, unescaped, into the
predicate text: for each selected column and each term the WHERE clause —
and the full sample query — contains the exact fragment
`[col] LIKE '%term%'` character for character, whatever characters the term
holds. -/
theorem C6_unescaped_splice (scols terms : List String) (tname col term : String)
    (hc : col ∈ scols) (ht : term ∈ terms) :
    strContains (where_clause scols terms) (col_condition col term) = true
    ∧ strContains (sample_sql tname (where_clause scols terms))
        (col_condition col term) = true := by
  have hin : strContains (term_condition scols term) (col_condition col term) = true := by
    have hm : col_condition col term ∈ scols.map (fun c => col_condition c term) :=
      List.mem_map.mpr ⟨col, hc, rfl⟩
    have hj := strContains_joinSep " OR " (scols.map (fun c => col_condition c term)) _ hm
    unfold term_condition
    exact strContains_append_right _ _ _ (strContains_append_left _ _ _ hj)
  have hw : strContains (where_clause scols terms) (term_condition scols term) = true := by
    have hm : term_condition scols term ∈ terms.map (fun t => term_condition scols t) :=
      List.mem_map.mpr ⟨term, ht, rfl⟩
    exact strContains_joinSep " AND " _ _ hm
  have hmain := strContains_trans _ _ _ hw hin
  refine ⟨hmain, ?_⟩
  unfold sample_sql
  exact strContains_append_left _ _ _ hmain

/-- C6 witness: a term carrying the engine's wildcard and quote characters
(`%`, `_`, `[`, `'`) lands in the clause verbatim, unescaped. -/
theorem C6_witness :
    ("Name" ∈ (["Name"] : List String))
    ∧ ("%_['" ∈ (["%_['"] : List String))
    ∧ strContains (where_clause ["Name"] ["%_['"]) (col_condition "Name" "%_['") = true
    ∧ strContains (sample_sql "T" (where_clause ["Name"] ["%_['"]))
        (col_condition "Name" "%_['") = true :=
  ⟨by decide, by decide,
    (C6_unescaped_splice ["Name"] ["%_['"] "T" "Name" "%_['" (by decide) (by decide)).1,
    (C6_unescaped_splice ["Name"] ["%_['"] "T" "Name" "%_['" (by decide) (by decide)).2⟩

/-- C7: a table none of whose declared column types contains a marker of
{VARCHAR, NVARCHAR, TEXT, CHAR} (uppercased substring test) is never
scanned for rows and never contributes: its scan is `none` for any terms, no
row (hence no count) query is issued against it, and the aggregate with it
in the catalog equals the aggregate without it — for any phrase, budget and
position in the catalog. -/
theorem C7_no_string_columns (t : Table)
    (hs : ∀ c ∈ t.columns, is_string_col_type c.declType = false) :
    (∀ terms, scan_table terms t = none)
    ∧ row_queried t = false
    ∧ ∀ (phrase : String) (b : Nat) (pre post : List Table),
        search_all_tables phrase b (pre ++ t :: post)
            = search_all_tables phrase b (pre ++ post)
        ∧ row_queried_tables phrase b (pre ++ t :: post)
            = row_queried_tables phrase b (pre ++ post) := by
  have hcols : string_cols t.columns = [] := by
    unfold string_cols
    rw [List.filter_eq_nil_iff.mpr (fun c hc => by simp [hs c hc])]
    rfl
  have hnone : ∀ terms, scan_table terms t = none :=
    fun terms => scan_table_no_string_cols terms t hcols
  have hrq : row_queried t = false := by
    simp [row_queried, hcols]
  refine ⟨hnone, hrq, ?_⟩
  intro phrase b pre post
  exact ⟨search_aux_middle_none _ b pre post t [] (hnone _),
    row_queried_aux_middle _ b pre post t [] (hnone _) hrq⟩

/-- C7 witness: an all-integer table is invisible to the search. -/
theorem C7_witness :
    scan_table ["a"] intTable = none
    ∧ row_queried intTable = false
    ∧ search_all_tables "Linda" 10 ([lindaTable] ++ intTable :: [])
        = search_all_tables "Linda" 10 ([lindaTable] ++ []) :=
  ⟨(C7_no_string_columns intTable (by decide)).1 ["a"],
    (C7_no_string_columns intTable (by decide)).2.1,
    ((C7_no_string_columns intTable (by decide)).2.2 "Linda" 10 [lindaTable] []).1⟩

/-- C8: with budget 1 and at least two matching tables in the catalog, the
aggregate holds exactly the TableMatch of the first matching table in
enumeration order, regardless of any later table's match count. -/
theorem C8_budget_one_first_wins (phrase : String) (pre : List Table) (t : Table)
    (rest : List Table) (mA : TableMatch)
    (hpre : ∀ u ∈ pre, scan_table (pySplit phrase) u = none)
    (hA : scan_table (pySplit phrase) t = some mA)
    (hB : ∃ u ∈ rest, scan_table (pySplit phrase) u ≠ none) :
    search_all_tables phrase 1 (pre ++ t :: rest) = [mA] := by
  unfold search_all_tables
  rw [search_aux_append, search_aux_all_none _ 1 pre [] hpre]
  simp only [search_aux, List.length_nil]
  rw [if_neg (by omega), hA]
  exact search_aux_of_le _ 1 rest [mA] (by simp)

/-- C8 witness: budget 1, a non-matching table, then two matching tables;
only the first matching table's TableMatch is returned. -/
theorem C8_witness :
    (∀ u ∈ [intTable], scan_table (pySplit "Linda") u = none)
    ∧ scan_table (pySplit "Linda") lindaTable = some lindaMatch
    ∧ (∃ u ∈ [bigTable, lindaTable], scan_table (pySplit "Linda") u ≠ none)
    ∧ search_all_tables "Linda" 1 ([intTable] ++ lindaTable :: [bigTable, lindaTable])
        = [lindaMatch] :=
  ⟨by decide, by decide, ⟨lindaTable, by decide, by decide⟩,
    C8_budget_one_first_wins "Linda" [intTable] lindaTable [bigTable, lindaTable]
      lindaMatch (by decide) (by decide) ⟨lindaTable, by decide, by decide⟩⟩

/-- C9: every record emitted by the combiner is a sampled record of one of
the aggregated TableMatches tagged with `_source_table` equal to that
match's table name; concretely, the "Linda" scenario yields exactly one
TableMatch for `Contacts` with totalCount 1 whose sampled row, once
combined, carries `_source_table: "Contacts"`. -/
theorem C9_provenance_tagging :
    (∀ (rs : List TableMatch) (rec' : DbRecord), rec' ∈ (combine_results rs).1 →
      ∃ r ∈ rs, ∃ rec ∈ r.records,
        rec' = set_key rec "_source_table" (.vstr r.table)
        ∧ get_val rec' "_source_table" = some (.vstr r.table))
    ∧ search_all_tables "Linda" 10 [lindaTable] = [lindaMatch]
    ∧ combine_results [lindaMatch] = ([lindaTagged], ["Contacts"]) := by
  refine ⟨?_, by decide, by decide⟩
  intro rs
  induction rs with
  | nil =>
    intro rec' h
    cases h
  | cons r rs ih =>
    intro rec' h
    rcases List.mem_append.mp h with h | h
    · obtain ⟨rec, hrec, rfl⟩ := List.mem_map.mp h
      exact ⟨r, List.mem_cons_self r rs, rec, hrec, rfl, get_val_set_key rec _ _⟩
    · obtain ⟨r', hr', rec, hrec, h1, h2⟩ := ih rec' h
      exact ⟨r', List.mem_cons_of_mem r hr', rec, hrec, h1, h2⟩

/-- C9 witness: the tagged Linda row, with its provenance readable back. -/
theorem C9_witness :
    lindaTagged ∈ (combine_results [lindaMatch]).1
    ∧ ∃ r ∈ [lindaMatch], ∃ rec ∈ r.records,
        lindaTagged = set_key rec "_source_table" (.vstr r.table)
        ∧ get_val lindaTagged "_source_table" = some (.vstr r.table) :=
  ⟨by decide, C9_provenance_tagging.1 [lindaMatch] lindaTagged (by decide)⟩

/-- C10 counterexample to "the multi-term AND path is never exercised from
this entry point": a question containing a tab but no space character fails
the `' ' in question` test, is passed whole to the search, and splits there
into two terms whose WHERE clause conjoins two LIKE groups with AND. -/
theorem C10_counterexample :
    query_search_term "a\tb" = some "a\tb"
    ∧ pySplit "a\tb" = ["a", "b"]
    ∧ where_clause ["X"] (pySplit "a\tb")
        = "([X] LIKE '%a%') AND ([X] LIKE '%b%')" :=
  ⟨by decide, by decide, by decide⟩

/-- C10 amended: for every question containing at least one space character
and at least one token, the entry point passes exactly the last
whitespace-delimited token to the multi-table search, and that token
re-splits to a single SearchTerm — so such questions never exercise the
multi-term AND path; a space-free question, however, is passed whole (and,
if it contains other whitespace such as a tab, does exercise that path). -/
theorem C10_last_token_only (q : String) (hq : q.toList.contains ' ' = true)
    (hne : pySplit q ≠ []) :
    query_search_term q = (pySplit q).getLast?
    ∧ ∀ s, query_search_term q = some s → pySplit s = [s] := by
  constructor
  · simp only [query_search_term, hq, if_true]
  · intro s hs
    simp only [query_search_term, hq, if_true] at hs
    have hmem : s ∈ pySplit q := by
      obtain ⟨h', heq⟩ := List.mem_getLast?_eq_getLast (Option.mem_def.mpr hs)
      subst heq
      exact List.getLast_mem h'
    exact pySplit_token q s hmem

/-- C10 witness: "who is Mark Elinski" searches only "Elinski", one term. -/
theorem C10_witness :
    ("who is Mark Elinski".toList.contains ' ' = true)
    ∧ pySplit "who is Mark Elinski" ≠ []
    ∧ query_search_term "who is Mark Elinski" = (pySplit "who is Mark Elinski").getLast?
    ∧ query_search_term "who is Mark Elinski" = some "Elinski"
    ∧ ∀ s, query_search_term "who is Mark Elinski" = some s → pySplit s = [s] :=
  ⟨by decide, by decide,
    (C10_last_token_only "who is Mark Elinski" (by decide) (by decide)).1,
    by decide,
    (C10_last_token_only "who is Mark Elinski" (by decide) (by decide)).2⟩
